import Mathlib

/-!
# Verification of the query-support layer of the medical-practice SQL assistant

Shallow embedding of the core text-processing and caching functions of
`sqlAgent.py` (schema introspection with time-bucketed caching, query
preprocessing, prompt composition, the SQL-safety rewriter, and the result
cache), together with proofs and refutations of the specification's claims.

Text is modelled as `List Char`.  Python `re` searches are modelled by
explicit scanners that implement exactly the regular expressions appearing
in the source (`\bjoin\b`, `\bgroup\s+by\b`, `\bdistinct\b`, `SELECT\s+`,
`(\w+)\s*=\s*(['\x22])(.*?)(\2)`, `\w+\s*=\s*['\x22]`, `\s+`, `--.*$` with
MULTILINE, `/\*.*?\*/` with DOTALL).
-/

/-- Python `\s` whitespace class (ASCII part, which is all the source uses). -/
def isSpc (c : Char) : Bool :=
  c = ' ' || c = '\t' || c = '\n' || c = '\r' || c = '\x0b' || c = '\x0c'

/-- Python `\w` word-character class (ASCII letters, digits, underscore). -/
def isWordChar (c : Char) : Bool :=
  ('a' ≤ c && c ≤ 'z') || ('A' ≤ c && c ≤ 'Z') || ('0' ≤ c && c ≤ '9') || c = '_'

/-- ASCII uppercase test. -/
def isUpperA (c : Char) : Bool := 'A' ≤ c && c ≤ 'Z'

/-- Case-insensitive character equality, as `re.IGNORECASE` treats ASCII. -/
def eqCI (a b : Char) : Bool :=
  a = b || (isUpperA a && b.toNat = a.toNat + 32) || (isUpperA b && a.toNat = b.toNat + 32)

/-- `startsWithCI w l`: `l` begins with the word `w`, case-insensitively. -/
def startsWithCI : List Char → List Char → Bool
  | [], _ => true
  | _ :: _, [] => false
  | w :: ws, c :: cs => eqCI w c && startsWithCI ws cs

/-- `startsWithL p l`: `l` begins with `p` (exact characters). -/
def startsWithL : List Char → List Char → Bool
  | [], _ => true
  | _ :: _, [] => false
  | p :: ps, c :: cs => p = c && startsWithL ps cs

/-- Substring test: some suffix of `l` begins with `p`. -/
def containsSub (p : List Char) : List Char → Bool
  | [] => startsWithL p []
  | c :: cs => startsWithL p (c :: cs) || containsSub p cs

/-- `endsWithL p l`: `l` ends with `p`. -/
def endsWithL (p l : List Char) : Bool := startsWithL p.reverse l.reverse

/-- Does some position of the text satisfy the position predicate `here`?
Models `re.search` for patterns without a leading `\b`. -/
def scanAny (here : List Char → Bool) : List Char → Bool
  | [] => false
  | c :: cs => here (c :: cs) || scanAny here cs

/-- Count of positions at which a `\b`-anchored pattern matches.  `prevW`
says whether the character before the current position is a word character
(at such positions `\b` fails for a pattern starting with a word character). -/
def scanCount (here : List Char → Bool) : Bool → List Char → Nat
  | _, [] => 0
  | prevW, c :: cs =>
    (if !prevW && here (c :: cs) then 1 else 0) + scanCount here (isWordChar c) cs

/-- The position after a word-shaped pattern must not be a word character
(the trailing `\b`). -/
def boundaryAfter (n : Nat) (l : List Char) : Bool :=
  match l.drop n with
  | [] => true
  | c :: _ => !isWordChar c

/-- Position match for `join\b` (the leading `\b` is handled by `scanCount`). -/
def joinHere (l : List Char) : Bool :=
  startsWithCI "join".data l && boundaryAfter 4 l

/-- Position match for `group\s+by\b`. -/
def groupByHere (l : List Char) : Bool :=
  startsWithCI "group".data l &&
    (let r := l.drop 5
     match r with
     | c :: _ =>
       isSpc c && startsWithCI "by".data (r.dropWhile isSpc) &&
         boundaryAfter 2 (r.dropWhile isSpc)
     | [] => false)

/-- Position match for `distinct\b`. -/
def distinctHere (l : List Char) : Bool :=
  startsWithCI "distinct".data l && boundaryAfter 8 l

/-- Number of word-bounded, case-insensitive occurrences of `DISTINCT`. -/
def countDistinct (s : List Char) : Nat := scanCount distinctHere false s

/-- Embedding of `re.search(r'\bjoin\b', s, re.IGNORECASE)` as a Boolean. -/
def hasJoin (s : List Char) : Bool := scanCount joinHere false s != 0

/-- Embedding of `re.search(r'\bgroup\s+by\b', s, re.IGNORECASE)`. -/
def hasGroupBy (s : List Char) : Bool := scanCount groupByHere false s != 0

/-- Embedding of `re.search(r'\bdistinct\b', s, re.IGNORECASE)`. -/
def hasDistinct (s : List Char) : Bool := countDistinct s != 0

/-- Position match for `SELECT\s+` (case-insensitive, no word boundary,
exactly as the source regex `r'(SELECT\s+)'`). -/
def selectWSHere (l : List Char) : Bool :=
  startsWithCI "select".data l &&
    (match l.drop 6 with
     | c :: _ => isSpc c
     | [] => false)

/-- Does `SELECT\s+` match at some position of the text? -/
def hasSelectWS : List Char → Bool
  | [] => false
  | c :: cs => selectWSHere (c :: cs) || hasSelectWS cs

/-- `re.sub(r'(SELECT\s+)', r'\1DISTINCT ', s, flags=re.IGNORECASE, count=1)`:
at the first position where `SELECT` is followed by whitespace, keep the
keyword and its (greedily matched) whitespace run and insert `DISTINCT `. -/
def insertDistinct : List Char → List Char
  | [] => []
  | c :: cs =>
    if selectWSHere (c :: cs) then
      (c :: cs).take 6 ++ ((c :: cs).drop 6).takeWhile isSpc
        ++ "DISTINCT ".data ++ ((c :: cs).drop 6).dropWhile isSpc
    else
      c :: insertDistinct cs

/-- The transformation description produced by the duplicate guard. -/
def addedDistinctMsg : List Char :=
  "Added DISTINCT to prevent duplicate rows from joins".data

/-- Embedding of `detect_and_handle_duplicates` from `sqlAgent.py`:
if the query has a `JOIN` but neither `GROUP BY` nor `DISTINCT`, run the
`SELECT\s+` substitution (once) and report the transformation; otherwise
return the text unchanged with no message. -/
def detect_and_handle_duplicates (s : List Char) : List Char × Option (List Char) :=
  if hasJoin s && !hasGroupBy s && !hasDistinct s then
    (insertDistinct s, some addedDistinctMsg)
  else
    (s, none)

/-! ## `improve_string_matching`

The first substitution in the source is
`re.sub(r'(\w+)\s*=\s*(['\x22])(.*?)(\2)', r'LOWER(\1) = LOWER(\2\3\4)', s)`.
A match at a position is: a maximal nonempty run of word characters, optional
whitespace, `=`, optional whitespace, a quote character, the shortest run of
non-newline characters up to the same quote.  (Only the maximal word run can
match because backtracking `\w+` to a shorter run leaves a word character
where the pattern next requires whitespace or `=`.)

The second substitution's pattern,
`r'LOWER\((\w+)\)\s*=\s*LOWER\([\x27\x22])(.*?)([\x27\x22])\)'`, contains an
unbalanced closing parenthesis after `LOWER\([\x27\x22]`, so `re.sub` raises
`re.error` whenever that branch is reached; the model returns `none`. -/

/-- Scan up to the first occurrence of the closing quote `q`; fail if a
newline intervenes or the quote never occurs (the lazy `(.*?)` with `.` not
matching newlines). Returns the literal and the remaining text. -/
def takeToQuote (q : Char) : List Char → Option (List Char × List Char)
  | [] => none
  | c :: cs =>
    if c = q then some ([], cs)
    else if c = '\n' then none
    else
      match takeToQuote q cs with
      | some (lit, rest) => some (c :: lit, rest)
      | none => none

/-- Try to match `(\w+)\s*=\s*(['\x22])(.*?)(\2)` at the head of the text.
On success return the replacement text `LOWER(\1) = LOWER(\2\3\4)` and the
rest of the input after the match. -/
def matchEqAt (l : List Char) : Option (List Char × List Char) :=
  let w := l.takeWhile isWordChar
  if w.isEmpty then none
  else
    match (l.dropWhile isWordChar).dropWhile isSpc with
    | '=' :: r3 =>
      match r3.dropWhile isSpc with
      | q :: r5 =>
        if q = '\'' || q = '"' then
          match takeToQuote q r5 with
          | some (lit, rest) =>
            some ("LOWER(".data ++ w ++ ") = LOWER(".data ++ [q] ++ lit ++ [q] ++ ")".data,
                  rest)
          | none => none
        else none
      | [] => none
    | _ => none

/-- Scanning loop of the first `re.sub` of `improve_string_matching`: at each
position either rewrite a full equality-to-string-literal match (continuing
after the match) or keep the character.  The fuel argument only serves
structural recursion: each step consumes at least one character of the input,
so fuel equal to the input length is never exhausted. -/
def lowerSubGo : Nat → List Char → List Char
  | 0, l => l
  | _ + 1, [] => []
  | fuel + 1, c :: cs =>
    match matchEqAt (c :: cs) with
    | some (rep, rest) => rep ++ lowerSubGo fuel rest
    | none => c :: lowerSubGo fuel cs

/-- Embedding of the first `re.sub` of `improve_string_matching`. -/
def lowerSub (s : List Char) : List Char := lowerSubGo s.length s

/-- Position match for `\w+\s*=\s*['\x22]` (the condition guarding the second,
invalid substitution). -/
def eqQuoteHere (l : List Char) : Bool :=
  !(l.takeWhile isWordChar).isEmpty &&
    (match (l.dropWhile isWordChar).dropWhile isSpc with
     | '=' :: r3 =>
       match r3.dropWhile isSpc with
       | c :: _ => c = '\'' || c = '"'
       | [] => false
     | _ => false)

/-- Embedding of `re.search(r'\w+\s*=\s*[\x27\x22]', s)`. -/
def hasEqQuote (s : List Char) : Bool := scanAny eqQuoteHere s

/-- Embedding of `"LIKE" in s.upper()`: case-insensitive substring test. -/
def containsLIKE (s : List Char) : Bool := scanAny (startsWithCI "like".data) s

/-- Embedding of `improve_string_matching` from `sqlAgent.py`.  The first
substitution always runs.  If the result contains no `LIKE` and still
matches `\w+\s*=\s*['\x22]`, the source calls `re.sub` with a syntactically
invalid pattern (unbalanced parenthesis) and raises `re.error`; a raised
exception is modelled as `none`.  The `return modified_query, "Modified for
..."` line after that call is unreachable.  Otherwise the rewritten text is
returned with no message. -/
def improve_string_matching (s : List Char) :
    Option (List Char × Option (List Char)) :=
  let m := lowerSub s
  if !containsLIKE m && hasEqQuote m then
    none
  else
    some (m, none)

/-- The full rewrite applied to extracted SQL in `sql_agent`
(lines 321–322): the duplicate guard, then string-match normalization;
result is the rewritten SQL with both transformation messages.  An exception
(`none`) from the second stage propagates. -/
def rewritePipeline (s : List Char) :
    Option (List Char × Option (List Char) × Option (List Char)) :=
  let p := detect_and_handle_duplicates s
  match improve_string_matching p.1 with
  | some (m, msg2) => some (m, p.2, msg2)
  | none => none

/-! ## `preprocess_user_query`

The source applies, in this order: `str.strip()`, `re.sub(r'\s+', ' ')`,
`re.sub(r'--.*$', '', flags=re.MULTILINE)`, `re.sub(r'/\*.*?\*/', '',
flags=re.DOTALL)`. -/

/-- Remove the trailing run of whitespace (the right half of `str.strip()`). -/
def dropTrailingSpc : List Char → List Char
  | [] => []
  | c :: cs =>
    match dropTrailingSpc cs with
    | [] => if isSpc c then [] else [c]
    | r => c :: r

/-- Embedding of `str.strip()`. -/
def stripW (l : List Char) : List Char := dropTrailingSpc (l.dropWhile isSpc)

/-- Embedding of `re.sub(r'\s+', ' ', l)`: every maximal whitespace run
becomes a single space (the run's last character is replaced by `' '` after
the earlier ones are dropped, which yields the same string). -/
def collapse : List Char → List Char
  | [] => []
  | [c] => [if isSpc c then ' ' else c]
  | c1 :: c2 :: rest =>
    if isSpc c1 && isSpc c2 then collapse (c2 :: rest)
    else (if isSpc c1 then ' ' else c1) :: collapse (c2 :: rest)

/-- State machine for `re.sub(r'--.*$', '', l, flags=re.MULTILINE)`: in
skipping mode (`true`), characters are removed up to (but excluding) the
next newline.  `.` does not match a newline and `$` matches before one.
On seeing `--`, dropping the first `-` and entering skipping mode removes
exactly the regex's match. -/
def stripLineGo : Bool → List Char → List Char
  | _, [] => []
  | true, c :: cs => if c = '\n' then '\n' :: stripLineGo false cs else stripLineGo true cs
  | false, c :: cs =>
    if c = '-' && cs.head? = some '-' then stripLineGo true cs
    else c :: stripLineGo false cs

/-- Embedding of `re.sub(r'--.*$', '', l, flags=re.MULTILINE)`. -/
def stripLineComments (l : List Char) : List Char := stripLineGo false l

/-- Skip to just past the first occurrence of `*/`; `none` if there is none. -/
def findClose : List Char → Option (List Char)
  | [] => none
  | '*' :: '/' :: rest => some rest
  | _ :: rest => findClose rest

/-- Loop of `re.sub(r'/\*.*?\*/', '', l, flags=re.DOTALL)`: at each `/*`,
remove up to the nearest following `*/` (lazy match); if no `*/` follows, no
further match is possible anywhere, so the rest is kept verbatim.  Fuel is
only for structural recursion; every step consumes at least one character. -/
def stripBlockGo : Nat → List Char → List Char
  | 0, l => l
  | _ + 1, [] => []
  | fuel + 1, c :: cs =>
    if c = '/' && cs.head? = some '*' then
      match findClose cs.tail with
      | some rest => stripBlockGo fuel rest
      | none => c :: cs
    else c :: stripBlockGo fuel cs

/-- Embedding of `re.sub(r'/\*.*?\*/', '', l, flags=re.DOTALL)`. -/
def stripBlockComments (l : List Char) : List Char := stripBlockGo l.length l

/-- Embedding of `preprocess_user_query` from `sqlAgent.py`: strip, collapse
whitespace, remove line comments, remove block comments — in that order. -/
def preprocess_user_query (q : List Char) : List Char :=
  stripBlockComments (stripLineComments (collapse (stripW q)))

/-! ## Schema snapshot builder (`get_table_schema` body)

The backing store is modelled as a record of introspection queries, each
returning `none` when the underlying call raises.  `get_table_row_count` and
`get_table_sample_data` catch their own exceptions (returning `0` / `[]`);
every other failure propagates to the single `try`/`except` wrapping the
whole build, which returns the empty dict. -/

/-- A row of `PRAGMA table_info(t)` (SQLite flags are integers; the source
converts them with `bool(...)`). -/
structure ColumnRow where
  name : List Char
  type : List Char
  pk : Nat
  notnull : Nat
  dflt_value : Option (List Char)
  deriving DecidableEq

/-- A row of `PRAGMA foreign_key_list(t)` (keys `from`, `table`, `to`;
`from` and `to` are reserved words here, hence `fk_from` / `fk_to`). -/
structure FKRow where
  fk_from : List Char
  table : List Char
  fk_to : List Char
  deriving DecidableEq

/-- Column entry of the snapshot, as built at lines 107–115. -/
structure ColumnInfo where
  name : List Char
  type : List Char
  primary_key : Bool
  nullable : Bool
  default_value : Option (List Char)
  deriving DecidableEq

/-- Foreign-key entry of the snapshot (keys `from`, `to_table`, `to_column`). -/
structure ForeignKeyInfo where
  fk_from : List Char
  to_table : List Char
  to_column : List Char
  deriving DecidableEq

/-- Per-table snapshot entry.  Sample rows are modelled by their rendered
text (the prompt only ever formats them with `f"{row}"`). -/
structure TableInfo where
  columns : List ColumnInfo
  foreign_keys : List ForeignKeyInfo
  row_count : Nat
  sample_data : List (List Char)
  deriving DecidableEq

/-- The snapshot: table name → `TableInfo`, in insertion order. -/
abbrev Snapshot : Type := List (List Char × TableInfo)

/-- The relational store's introspection interface; `none` models a raised
exception in the corresponding `run_sql` / cursor call. -/
structure Store where
  tables : Option (List (List Char))
  tableInfo : List Char → Option (List ColumnRow)
  foreignKeys : List Char → Option (List FKRow)
  rowCount : List Char → Option Nat
  sampleData : List Char → Option (List (List Char))

def mkColumn (c : ColumnRow) : ColumnInfo :=
  { name := c.name, type := c.type, primary_key := c.pk != 0,
    nullable := !(c.notnull != 0), default_value := c.dflt_value }

def mkFK (f : FKRow) : ForeignKeyInfo :=
  { fk_from := f.fk_from, to_table := f.table, to_column := f.fk_to }

/-- Embedding of `get_table_row_count`: its own `try`/`except` returns `0`
on failure. -/
def get_table_row_count (st : Store) (t : List Char) : Nat := (st.rowCount t).getD 0

/-- Embedding of `get_table_sample_data`: its own `try`/`except` returns
`[]` on failure. -/
def get_table_sample_data (st : Store) (t : List Char) : List (List Char) :=
  (st.sampleData t).getD []

/-- The first loop of `get_table_schema`: per table, columns and foreign
keys (whose failures propagate) and the row count (whose failure does not).
A propagated failure aborts the whole loop. -/
def collectTables (st : Store) : List (List Char) → Option Snapshot
  | [] => some []
  | t :: ts =>
    match st.tableInfo t, st.foreignKeys t with
    | some cols, some fks =>
      (collectTables st ts).map
        (fun r =>
          (t, { columns := cols.map mkColumn, foreign_keys := fks.map mkFK,
                row_count := get_table_row_count st t, sample_data := [] }) :: r)
    | _, _ => none

/-- Embedding of the body of `get_table_schema` (`sqlAgent.py` 88–136):
empty snapshot when `sql_tool` is uninitialized (`connected = false`); the
whole build is wrapped in one `try`/`except` returning `{}`, so a failing
table-list, `table_info` or `foreign_key_list` query empties the result.
The second loop then attaches sample data (failures there yield `[]`). -/
def get_table_schema_body (connected : Bool) (st : Store) : Snapshot :=
  if !connected then []
  else
    match st.tables with
    | none => []
    | some ts =>
      match collectTables st ts with
      | none => []
      | some infos =>
        infos.map (fun p => (p.1, { p.2 with sample_data := get_table_sample_data st p.1 }))

/-! ## `functools.lru_cache` model

Shared by the schema cache (`@lru_cache(maxsize=32)` on `get_table_schema`)
and the result cache (`@lru_cache(maxsize=100)` on `cached_sql_results`).
`entries` is kept most-recently-used first; `calls` counts invocations of
the wrapped function.  A hit returns the stored value and refreshes recency;
a miss invokes the function (`f` receives the invocation index, so distinct
invocations are distinguishable), stores the result, and evicts beyond the
capacity. -/

structure LruCache (α β : Type) where
  entries : List (α × β)
  calls : Nat

def assocFind [DecidableEq α] (k : α) : List (α × β) → Option β
  | [] => none
  | (k', v) :: rest => if k = k' then some v else assocFind k rest

def removeKey [DecidableEq α] (k : α) : List (α × β) → List (α × β)
  | [] => []
  | (k', v) :: rest => if k = k' then removeKey k rest else (k', v) :: removeKey k rest

def lruGet [DecidableEq α] (cap : Nat) (c : LruCache α β) (k : α) (f : Nat → β) :
    β × LruCache α β :=
  match assocFind k c.entries with
  | some v => (v, { c with entries := (k, v) :: removeKey k c.entries })
  | none =>
    let v := f c.calls
    (v, { entries := ((k, v) :: c.entries).take cap, calls := c.calls + 1 })

/-- Embedding of the cached `get_table_schema(cache_key)`: the time bucket
`time.time() // (60 * 5)` is the key (modelled as `Int`), the cache is the
`lru_cache(maxsize=32)` state, and `build` is the body's behaviour at each
invocation. -/
def get_table_schema (c : LruCache Int Snapshot) (cache_key : Int)
    (build : Nat → Snapshot) : Snapshot × LruCache Int Snapshot :=
  lruGet 32 c cache_key build

/-- Embedding of `cached_sql_results` (`@lru_cache(maxsize=100)`).  The real
key is `(md5(sql), sql)`; since the SQL text itself is part of the key, the
key is modelled as the text.  `run` models `sql_tool.run_sql`; `none` is a
raised exception, which the body catches and returns as Python `None` —
which `lru_cache` then stores like any other result. -/
def cached_sql_results (c : LruCache (List Char) (Option (List (List Char))))
    (sql : List Char) (run : Nat → Option (List (List Char))) :
    Option (List (List Char)) × LruCache (List Char) (Option (List (List Char))) :=
  lruGet 100 c sql run

/-! ## Prompt composer (`sql_agent`, lines 240–302) -/

/-- One column line: `- name: type{pk}{null}{default}` (the pk marker is
`" (PK)"` or empty, nullability is always rendered, the default only when
truthy — in particular not for an empty string). -/
def renderColumn (col : ColumnInfo) : List Char :=
  "- ".data ++ col.name ++ ": ".data ++ col.type
    ++ (if col.primary_key then " (PK)".data else [])
    ++ (if col.nullable then " NULL".data else " NOT NULL".data)
    ++ (match col.default_value with
        | some d => if d.isEmpty then [] else " DEFAULT ".data ++ d
        | none => [])
    ++ "\n".data

/-- One relationship line: `- from → to_table.to_column`. -/
def renderFK (fk : ForeignKeyInfo) : List Char :=
  "- ".data ++ fk.fk_from ++ " → ".data ++ fk.to_table ++ ".".data ++ fk.to_column
    ++ "\n".data

def joinL : List (List Char) → List Char
  | [] => []
  | l :: ls => l ++ joinL ls

/-- One table section of the schema prompt. -/
def renderTable (name : List Char) (t : TableInfo) : List Char :=
  "## Table: ".data ++ name ++ " (".data ++ (toString t.row_count).data ++ " rows)\n".data
    ++ "### Columns:\n".data ++ joinL (t.columns.map renderColumn)
    ++ (if t.foreign_keys.isEmpty then []
        else "### Relationships:\n".data ++ joinL (t.foreign_keys.map renderFK))
    ++ (if t.sample_data.isEmpty then []
        else "### Sample Data:\n```\n".data
          ++ joinL (t.sample_data.map (· ++ "\n".data)) ++ "```\n".data)
    ++ "\n".data

/-- The schema section (`schema_prompt`). -/
def schemaPrompt (snap : Snapshot) : List Char :=
  "# Database Schema\n\n".data ++ joinL (snap.map (fun p => renderTable p.1 p.2))

/-- The fixed `prompt_guidance` block, verbatim from the source. -/
def prompt_guidance : List Char :=
  ("\n# Query Requirements:\n1. ALWAYS use DISTINCT when performing JOINs to avoid duplicate rows\n2. Use LOWER() function for case-insensitive string comparisons \n3. Use LIKE with wildcards (%) for partial string matching\n4. Format dates consistently using strftime() function\n5. When appropriate, include GROUP BY for aggregation\n6. Use meaningful column aliases for better readability\n7. Convert raw data into insights when appropriate\n8. Limit result sets to a reasonable size (max 100 rows)\n9. Add proper error handling for empty result sets\n\n# Response Format:\n0. explanation must should be in normal formate and normal english give space between each word\n1. A brief explanation of how you're approaching the question\n2. The SQL query (clearly formatted and with comments)\n3. The results in a clean, readable format (use markdown tables for structured data)\n4. A plain language explanation of what the results mean\n5. (If applicable) Data quality issues identified in the results\n6. (If applicable) Recommendations based on the data\n").data

/-- The fixed text that follows the user's question in the prompt. -/
def closingBlock : List Char :=
  ("\n\nRespond with the information requested using the format above. Be thorough but concise. \nExplain medical terminology and SQL concepts in simple terms that non-technical users can understand.\n").data

/-- Embedding of the `combined_query` f-string of `sql_agent`: the schema
section, the guidance block, `User Query: ` plus the (normalized) question,
then the fixed closing instructions. -/
def combined_query (snap : Snapshot) (query : List Char) : List Char :=
  "\n".data ++ schemaPrompt snap ++ "\n\n".data ++ prompt_guidance
    ++ "\n\nUser Query: ".data ++ query ++ closingBlock

/-! ## Auxiliary predicates and concrete inputs used by the theorems -/

/-- Adjacent occurrence of the two characters `a`, `b` somewhere in the
text (used for the comment-starting digraphs `--` and `/*`). -/
def hasPair (a b : Char) : List Char → Bool
  | x :: y :: cs => (x = a && y = b) || hasPair a b (y :: cs)
  | _ => false

/-- `c` is case-insensitively distinct from every whitespace character. -/
def notSpaceCI (c : Char) : Bool :=
  !eqCI c ' ' && !eqCI c '\t' && !eqCI c '\n' && !eqCI c '\r' &&
    !eqCI c '\x0b' && !eqCI c '\x0c'

/-- Whitespace-run/space-only shape of `re.sub(r'\s+', ' ')` output: no two
adjacent whitespace characters, and every whitespace character is `' '`. -/
def collapsedB : List Char → Bool
  | [] => true
  | [c] => !isSpc c || c = ' '
  | c1 :: c2 :: rest =>
    (!isSpc c1 || c1 = ' ') && !(isSpc c1 && isSpc c2) && collapsedB (c2 :: rest)

/-- `true` when the text is empty or its last character is not whitespace. -/
def lastNonSpc (l : List Char) : Bool :=
  match l.getLast? with
  | none => true
  | some c => !isSpc c

/-- A store over tables `a`, `b` whose connection and table list are fine
but where column introspection of the single table `a` fails. -/
def storeC5 : Store :=
  { tables := some ["a".data, "b".data],
    tableInfo := fun t => if t = "a".data then none else some [],
    foreignKeys := fun _ => some [],
    rowCount := fun _ => some 1,
    sampleData := fun _ => some [] }

/-- The `vendor VARCHAR(100)` column of `purchase_orders` as introspected
from the seed schema (nullable, no default, not a primary key). -/
def vendorCol : ColumnInfo :=
  { name := "vendor".data, type := "VARCHAR(100)".data,
    primary_key := false, nullable := true, default_value := none }

/-- A minimal snapshot containing the `purchase_orders` table with the
`vendor` column. -/
def infoC9 : TableInfo :=
  { columns := [vendorCol], foreign_keys := [], row_count := 2, sample_data := [] }

def snapC9 : Snapshot := [("purchase_orders".data, infoC9)]

/-- The example question from the spec's prompt-composition scenario. -/
def q9 : List Char := "List all purchase orders from Medline Industries".data

/-- Fresh (empty) schema cache. -/
def emptySchemaCache : LruCache Int Snapshot := { entries := [], calls := 0 }

/-- Fresh (empty) result cache. -/
def emptyResultCache : LruCache (List Char) (Option (List (List Char))) :=
  { entries := [], calls := 0 }

/-! # Theorems

General lemmas first, then one theorem (plus counterexample/witness where
required) per claim of the specification. -/

/-! ## LRU cache lemmas -/

theorem assocFind_cons_self [DecidableEq α] (k : α) (v : β) (l : List (α × β)) :
    assocFind k ((k, v) :: l) = some v := by
  simp [assocFind]

theorem lruGet_hit [DecidableEq α] {c : LruCache α β} {k : α} {v : β} (cap : Nat)
    (f : Nat → β) (h : assocFind k c.entries = some v) :
    lruGet cap c k f = (v, { c with entries := (k, v) :: removeKey k c.entries }) := by
  simp [lruGet, h]

theorem lruGet_miss [DecidableEq α] {c : LruCache α β} {k : α} (cap : Nat)
    (f : Nat → β) (h : assocFind k c.entries = none) :
    lruGet cap c k f
      = (f c.calls,
         { entries := ((k, f c.calls) :: c.entries).take cap, calls := c.calls + 1 }) := by
  simp [lruGet, h]

/-- After any call with key `k`, the cache holds `k` as its most recent
entry (capacity at least one), so an immediately repeated call hits. -/
theorem lruGet_repeat [DecidableEq α] (cap : Nat) (hcap : 0 < cap)
    (c : LruCache α β) (k : α) (f : Nat → β) :
    (lruGet cap (lruGet cap c k f).2 k f).1 = (lruGet cap c k f).1 ∧
    (lruGet cap (lruGet cap c k f).2 k f).2.calls = (lruGet cap c k f).2.calls := by
  obtain ⟨m, rfl⟩ : ∃ m, cap = m + 1 := ⟨cap - 1, by omega⟩
  cases h : assocFind k c.entries with
  | some v =>
    rw [lruGet_hit _ f h]
    have h2 : assocFind k ((k, v) :: removeKey k c.entries) = some v :=
      assocFind_cons_self k v _
    rw [lruGet_hit _ f h2]
    exact ⟨rfl, rfl⟩
  | none =>
    rw [lruGet_miss _ f h]
    have h2 : assocFind k (((k, f c.calls) :: c.entries).take (m + 1))
        = some (f c.calls) := by
      rw [List.take_succ_cons]
      exact assocFind_cons_self _ _ _
    rw [lruGet_hit _ f h2]
    exact ⟨rfl, rfl⟩

/-! ## C4 — result cache and executor failure -/

/-- C4 (counterexample): with an executor that always fails (`run_sql`
raises, the body catches and returns `None`), the first call on a fresh
cache invokes the executor and `lru_cache` stores the `None`; the second
identical call returns the stored `None` with the executor still invoked
only once — the claim demands a second invocation. -/
theorem c4_failure_is_cached :
    (cached_sql_results emptyResultCache "SELECT 1".data (fun _ => none)).1 = none ∧
    (cached_sql_results (cached_sql_results emptyResultCache "SELECT 1".data
        (fun _ => none)).2 "SELECT 1".data (fun _ => none)).1 = none ∧
    (cached_sql_results (cached_sql_results emptyResultCache "SELECT 1".data
        (fun _ => none)).2 "SELECT 1".data (fun _ => none)).2.calls = 1 :=
  ⟨rfl, rfl, rfl⟩

/-- C4 (amended): the result cache stores whatever the first call produced —
a failure's `None` exactly like a success — so the second identical call
returns that stored result and never re-invokes the executor; the
executor runs exactly once. -/
theorem c4_amended (c : LruCache (List Char) (Option (List (List Char))))
    (sql : List Char) (run : Nat → Option (List (List Char)))
    (h : assocFind sql c.entries = none) :
    (cached_sql_results c sql run).1 = run c.calls ∧
    (cached_sql_results c sql run).2.calls = c.calls + 1 ∧
    (cached_sql_results (cached_sql_results c sql run).2 sql run).1
      = (cached_sql_results c sql run).1 ∧
    (cached_sql_results (cached_sql_results c sql run).2 sql run).2.calls
      = (cached_sql_results c sql run).2.calls := by
  have hrep := lruGet_repeat 100 (by omega) c sql run
  refine ⟨?_, ?_, hrep.1, hrep.2⟩
  · rw [cached_sql_results, lruGet_miss _ run h]
  · rw [cached_sql_results, lruGet_miss _ run h]

theorem c4_amended_witness :
    assocFind "SELECT 1".data emptyResultCache.entries = none ∧
    (cached_sql_results emptyResultCache "SELECT 1".data (fun _ => some [])).2.calls = 1 ∧
    (cached_sql_results (cached_sql_results emptyResultCache "SELECT 1".data
        (fun _ => some [])).2 "SELECT 1".data (fun _ => some [])).2.calls = 1 := by
  have h : assocFind "SELECT 1".data emptyResultCache.entries = none := rfl
  have := c4_amended emptyResultCache "SELECT 1".data (fun _ => some []) h
  exact ⟨h, this.2.1, this.2.2.2.trans this.2.1⟩

/-! ## C8 — schema cache behaviour per time bucket -/

/-- C8: a second `get_table_schema` call with the same time bucket returns
the same snapshot as the first without invoking the builder again, and a
call with a bucket not in the cache always invokes the builder. -/
theorem c8_schema_cache (c : LruCache Int Snapshot) (b : Int) (build : Nat → Snapshot) :
    (get_table_schema (get_table_schema c b build).2 b build).1
        = (get_table_schema c b build).1 ∧
    (get_table_schema (get_table_schema c b build).2 b build).2.calls
        = (get_table_schema c b build).2.calls ∧
    (assocFind b c.entries = none →
      (get_table_schema c b build).2.calls = c.calls + 1) := by
  have hrep := lruGet_repeat 32 (by omega) c b build
  refine ⟨hrep.1, hrep.2, fun h => ?_⟩
  rw [get_table_schema, lruGet_miss _ build h]

theorem c8_schema_cache_witness :
    (get_table_schema (get_table_schema emptySchemaCache 0 (fun _ => [])).2 0
        (fun _ => [])).1 = (get_table_schema emptySchemaCache 0 (fun _ => [])).1 ∧
    (get_table_schema (get_table_schema emptySchemaCache 0 (fun _ => [])).2 0
        (fun _ => [])).2.calls
      = (get_table_schema emptySchemaCache 0 (fun _ => [])).2.calls ∧
    (get_table_schema emptySchemaCache 0 (fun _ => [])).2.calls = 1 := by
  have := c8_schema_cache emptySchemaCache 0 (fun _ => [])
  exact ⟨this.1, this.2.1, this.2.2 rfl⟩

/-! ## C10 — a failed (empty) schema build is memoized for its bucket -/

/-- C10: if the build for a fresh bucket fails internally — the body
returns the empty snapshot — `lru_cache` stores that empty snapshot, and a
later call with the same bucket returns it without re-running the builder. -/
theorem c10_failed_build_memoized (c : LruCache Int Snapshot) (b : Int)
    (build : Nat → Snapshot) (hmiss : assocFind b c.entries = none)
    (hfail : build c.calls = []) :
    (get_table_schema c b build).1 = [] ∧
    (get_table_schema (get_table_schema c b build).2 b build).1 = [] ∧
    (get_table_schema (get_table_schema c b build).2 b build).2.calls
      = (get_table_schema c b build).2.calls := by
  have hrep := lruGet_repeat 32 (by omega) c b build
  have h1 : (get_table_schema c b build).1 = [] := by
    rw [get_table_schema, lruGet_miss _ build hmiss, hfail]
  have h2 : (get_table_schema (get_table_schema c b build).2 b build).1
      = (get_table_schema c b build).1 := hrep.1
  exact ⟨h1, h2.trans h1, hrep.2⟩

theorem c10_failed_build_memoized_witness :
    assocFind 7 emptySchemaCache.entries = none ∧ (fun _ => ([] : Snapshot)) 0 = [] ∧
    (get_table_schema emptySchemaCache 7 (fun _ => [])).1 = [] ∧
    (get_table_schema (get_table_schema emptySchemaCache 7 (fun _ => [])).2 7
        (fun _ => [])).1 = [] ∧
    (get_table_schema (get_table_schema emptySchemaCache 7 (fun _ => [])).2 7
        (fun _ => [])).2.calls
      = (get_table_schema emptySchemaCache 7 (fun _ => [])).2.calls := by
  have := c10_failed_build_memoized emptySchemaCache 7 (fun _ => []) rfl rfl
  exact ⟨rfl, rfl, this.1, this.2.1, this.2.2⟩

/-! ## C2 — rewrite of SQL already containing DISTINCT / GROUP BY -/

/-- C2 (counterexample): on `SELECT DISTINCT a FROM t WHERE name = 'x'` —
which contains `DISTINCT` — the full pipeline still rewrites the equality
predicate, so `rewritten_sql` differs from the input. -/
theorem c2_distinct_not_preserved :
    hasDistinct "SELECT DISTINCT a FROM t WHERE name = 'x'".data = true ∧
    rewritePipeline "SELECT DISTINCT a FROM t WHERE name = 'x'".data
      = some ("SELECT DISTINCT a FROM t WHERE LOWER(name) = LOWER('x')".data,
          none, none) ∧
    "SELECT DISTINCT a FROM t WHERE LOWER(name) = LOWER('x')".data
      ≠ "SELECT DISTINCT a FROM t WHERE name = 'x'".data := by
  refine ⟨by decide, by decide, by decide⟩

/-- C2 (amended): when the SQL already contains `DISTINCT` or `GROUP BY`
the duplicate guard returns it unchanged with no message; the whole
pipeline returns it unchanged only when, additionally, the string-matching
substitution does not fire and the partial-match branch (which raises) is
not reached. -/
theorem c2_amended (s : List Char)
    (h : hasDistinct s = true ∨ hasGroupBy s = true) :
    detect_and_handle_duplicates s = (s, none) ∧
    (lowerSub s = s → (containsLIKE s = true ∨ hasEqQuote s = false) →
      rewritePipeline s = some (s, none, none)) := by
  have hcond : (hasJoin s && !hasGroupBy s && !hasDistinct s) = false := by
    rcases h with h | h <;> simp [h]
  have hdet : detect_and_handle_duplicates s = (s, none) := by
    simp [detect_and_handle_duplicates, hcond]
  refine ⟨hdet, fun hls hc => ?_⟩
  have hcond2 : (!containsLIKE s && hasEqQuote s) = false := by
    rcases hc with hc | hc <;> simp [hc]
  simp [rewritePipeline, hdet, improve_string_matching, hls, hcond2]

theorem c2_amended_witness :
    (hasDistinct "SELECT DISTINCT a FROM t".data = true ∨
      hasGroupBy "SELECT DISTINCT a FROM t".data = true) ∧
    detect_and_handle_duplicates "SELECT DISTINCT a FROM t".data
      = ("SELECT DISTINCT a FROM t".data, none) ∧
    rewritePipeline "SELECT DISTINCT a FROM t".data
      = some ("SELECT DISTINCT a FROM t".data, none, none) := by
  have h : hasDistinct "SELECT DISTINCT a FROM t".data = true ∨
      hasGroupBy "SELECT DISTINCT a FROM t".data = true := Or.inl (by decide)
  have := c2_amended "SELECT DISTINCT a FROM t".data h
  exact ⟨h, this.1, this.2 (by decide) (Or.inr (by decide))⟩

/-! ## C3 — totality of the rewriter -/

/-- C3: the rewriter is not total.  On `name = 'unclosed` the first
substitution of `improve_string_matching` finds no closing quote, the text
still matches `\w+\s*=\s*['\x22]` and contains no `LIKE`, so the source
reaches `re.sub` with its unbalanced-parenthesis pattern and raises
`re.error` — it neither returns the original SQL nor records nothing. -/
theorem c3_rewriter_raises :
    improve_string_matching "name = 'unclosed".data = none ∧
    rewritePipeline "name = 'unclosed".data = none := by
  refine ⟨by decide, by decide⟩

/-! ## C5 — schema builder failure policy -/

/-- C5 (counterexample): `storeC5` has a working connection and table list
and a single table `a` whose column introspection fails; the claim requires
a snapshot still containing table `b`, but the single `try`/`except` around
the whole loop returns the empty snapshot, omitting `b` as well. -/
theorem c5_single_failure_empties_snapshot :
    storeC5.tables = some ["a".data, "b".data] ∧
    storeC5.tableInfo "a".data = none ∧
    storeC5.tableInfo "b".data = some [] ∧
    storeC5.foreignKeys "b".data = some [] ∧
    get_table_schema_body true storeC5 = [] ∧
    assocFind "b".data (get_table_schema_body true storeC5) = none := by
  exact ⟨rfl, by decide, by decide, rfl, rfl, rfl⟩

theorem collectTables_fail {st : Store} {t : List Char} :
    ∀ {ts : List (List Char)}, t ∈ ts → st.tableInfo t = none →
      collectTables st ts = none := by
  intro ts
  induction ts with
  | nil => intro h; cases h
  | cons t' ts' ih =>
    intro hmem hfail
    cases hmem with
    | head => simp [collectTables, hfail]
    | tail _ hm =>
      unfold collectTables
      cases h1 : st.tableInfo t' with
      | none => rfl
      | some cols =>
        cases h2 : st.foreignKeys t' with
        | none => rfl
        | some fks => simp [ih hm hfail]

theorem collectTables_ok {st : Store} :
    ∀ {ts : List (List Char)},
      (∀ t, t ∈ ts → (st.tableInfo t).isSome ∧ (st.foreignKeys t).isSome) →
      ∃ infos, collectTables st ts = some infos ∧ infos.map Prod.fst = ts := by
  intro ts
  induction ts with
  | nil => intro _; exact ⟨[], rfl, rfl⟩
  | cons t' ts' ih =>
    intro h
    obtain ⟨infos, hc, hm⟩ := ih (fun t ht => h t (List.mem_cons_of_mem _ ht))
    obtain ⟨h1, h2⟩ := h t' (List.mem_cons_self _ _)
    obtain ⟨cols, hcols⟩ := Option.isSome_iff_exists.mp h1
    obtain ⟨fks, hfks⟩ := Option.isSome_iff_exists.mp h2
    refine ⟨(t', TableInfo.mk (cols.map mkColumn) (fks.map mkFK)
        (get_table_row_count st t') []) :: infos, ?_, ?_⟩
    · unfold collectTables
      rw [hcols, hfks, hc]
      rfl
    · simp [hm]

/-- C5 (amended): with the connection established, a failure of any single
table's column introspection empties the entire snapshot; the snapshot
covers all tables only when every table's column and foreign-key queries
succeed (row-count and sample-data failures are tolerated per table); and an
unestablished connection also yields the empty snapshot. -/
theorem c5_amended (st : Store) (ts : List (List Char))
    (hts : st.tables = some ts) :
    (∀ t, t ∈ ts → st.tableInfo t = none → get_table_schema_body true st = []) ∧
    ((∀ t, t ∈ ts → (st.tableInfo t).isSome ∧ (st.foreignKeys t).isSome) →
      (get_table_schema_body true st).map Prod.fst = ts) ∧
    get_table_schema_body false st = [] := by
  refine ⟨fun t hmem hfail => ?_, fun hok => ?_, rfl⟩
  · simp [get_table_schema_body, hts, collectTables_fail hmem hfail]
  · obtain ⟨infos, hc, hm⟩ := collectTables_ok hok
    simp [get_table_schema_body, hts, hc]
    simpa using hm

theorem c5_amended_witness : get_table_schema_body true storeC5 = [] :=
  (c5_amended storeC5 ["a".data, "b".data] rfl).1 "a".data (by decide) (by decide)

/-! ## C7 — the normalization scenario -/

/-- C7: on `"Show revenue   \n-- comment\n this quarter"` the preprocessor
returns `"Show revenue "`, not the claimed `"Show revenue this quarter"`:
whitespace collapse runs before comment stripping, so `--.*$` (now facing a
single newline-free line) consumes everything after the comment marker. -/
theorem c7_comment_eats_tail :
    preprocess_user_query "Show revenue   \n-- comment\n this quarter".data
      = "Show revenue ".data ∧
    "Show revenue ".data ≠ "Show revenue this quarter".data := by
  refine ⟨by decide, by decide⟩

/-! ## C6 — idempotence of the preprocessor -/

/-- C6 (counterexample): `normalize` is not idempotent — on `"a -- b"` it
returns `"a "` (the comment is stripped after whitespace collapse, leaving a
trailing space), and a second application strips that space. -/
theorem c6_not_idempotent :
    preprocess_user_query "a -- b".data = "a ".data ∧
    preprocess_user_query (preprocess_user_query "a -- b".data) = "a".data ∧
    preprocess_user_query (preprocess_user_query "a -- b".data)
      ≠ preprocess_user_query "a -- b".data := by
  refine ⟨by decide, by decide, by decide⟩

theorem hasPair_tail {a b c : Char} {cs : List Char}
    (h : hasPair a b (c :: cs) = false) : hasPair a b cs = false := by
  cases cs with
  | nil => rfl
  | cons d cs' =>
    simp only [hasPair] at h
    simp only [Bool.or_eq_false_iff] at h
    exact h.2

theorem hasPair_dropWhile {a b : Char} {p : Char → Bool} :
    ∀ {l : List Char}, hasPair a b l = false → hasPair a b (l.dropWhile p) = false := by
  intro l
  induction l with
  | nil => intro _; rfl
  | cons c cs ih =>
    intro h
    rw [List.dropWhile_cons]
    by_cases hp : p c = true
    · simp only [hp, if_true]
      exact ih (hasPair_tail h)
    · simp only [hp, if_false]
      exact h

theorem dropTrailingSpc_head :
    ∀ {l : List Char}, dropTrailingSpc l ≠ [] → (dropTrailingSpc l).head? = l.head? := by
  intro l
  induction l with
  | nil => intro h; exact absurd rfl h
  | cons c cs _ =>
    intro _
    cases hr : dropTrailingSpc cs with
    | nil =>
      simp only [dropTrailingSpc, hr]
      by_cases hc : isSpc c = true
      · simp only [hc, if_true]
        simp only [dropTrailingSpc, hr, hc, if_true] at *
        tauto
      · simp only [hc, if_false]
        rfl
    | cons d r' =>
      simp only [dropTrailingSpc, hr]
      rfl

theorem hasPair_dropTrailing {a b : Char} :
    ∀ {l : List Char}, hasPair a b l = false → hasPair a b (dropTrailingSpc l) = false := by
  intro l
  induction l with
  | nil => intro _; rfl
  | cons c cs ih =>
    intro h
    cases hr : dropTrailingSpc cs with
    | nil =>
      simp only [dropTrailingSpc, hr]
      by_cases hc : isSpc c = true
      · simp only [hc, if_true]; rfl
      · simp only [hc, if_false]; rfl
    | cons d r' =>
      simp only [dropTrailingSpc, hr]
      have htl : hasPair a b (d :: r') = false := by
        rw [← hr]; exact ih (hasPair_tail h)
      have hd : cs.head? = some d := by
        have h1 : dropTrailingSpc cs ≠ [] := by rw [hr]; simp
        have h2 := dropTrailingSpc_head h1
        rw [hr] at h2
        rw [← h2]
        rfl
      cases cs with
      | nil => simp at hd
      | cons e cs' =>
        have hed : e = d := by simpa using hd
        subst hed
        simp only [hasPair, Bool.or_eq_false_iff] at h
        simp only [hasPair, Bool.or_eq_false_iff]
        exact ⟨h.1, htl⟩

theorem collapse_head :
    ∀ (cs : List Char) (c : Char),
      (collapse (c :: cs)).head? = some (if isSpc c then ' ' else c) := by
  intro cs
  induction cs with
  | nil => intro c; rfl
  | cons c2 rest ih =>
    intro c
    by_cases hb : (isSpc c && isSpc c2) = true
    · simp only [collapse, hb, if_true]
      rw [ih c2]
      have h1 : isSpc c = true := by
        simp only [Bool.and_eq_true] at hb
        exact hb.1
      have h2 : isSpc c2 = true := by
        simp only [Bool.and_eq_true] at hb
        exact hb.2
      rw [h1, h2]
      simp
    · simp only [collapse, hb, if_false]
      rfl

theorem collapse_ne_nil : ∀ (cs : List Char) (c : Char), collapse (c :: cs) ≠ [] := by
  intro cs
  induction cs with
  | nil =>
    intro c
    simp [collapse]
  | cons c2 rest ih =>
    intro c
    by_cases hb : (isSpc c && isSpc c2) = true
    · simp only [collapse, hb, if_true]
      exact ih c2
    · simp only [collapse, hb, if_false]
      simp

theorem hasPair_collapse {a b : Char} (ha : isSpc a = false) (hb : isSpc b = false) :
    ∀ (cs : List Char) (c : Char), hasPair a b (c :: cs) = false →
      hasPair a b (collapse (c :: cs)) = false := by
  intro cs
  induction cs with
  | nil =>
    intro c _
    show hasPair a b [if isSpc c then ' ' else c] = false
    rfl
  | cons c2 rest ih =>
    intro c h
    by_cases hsp : (isSpc c && isSpc c2) = true
    · simp only [collapse, hsp, if_true]
      exact ih c2 (hasPair_tail h)
    · simp only [collapse, hsp, if_false]
      obtain ⟨y, Y, hy⟩ : ∃ y Y, collapse (c2 :: rest) = y :: Y := by
        cases hc : collapse (c2 :: rest) with
        | nil => exact absurd hc (collapse_ne_nil rest c2)
        | cons y Y => exact ⟨y, Y, rfl⟩
      rw [hy]
      simp only [hasPair, Bool.or_eq_false_iff]
      constructor
      · -- head pair: would force c = a and c2 = b, contradicting `h`
        have hy2 : y = if isSpc c2 then ' ' else c2 := by
          have := collapse_head rest c2
          rw [hy] at this
          simpa using this
        simp only [Bool.and_eq_false_iff, decide_eq_false_iff_not]
        by_cases hca : (if isSpc c = true then ' ' else c) = a
        · right
          intro hyb
          have hc : c = a := by
            by_cases hsc : isSpc c = true
            · rw [if_pos hsc] at hca
              rw [← hca] at ha
              exact absurd ha (by decide)
            · rwa [if_neg hsc] at hca
          have hc2 : c2 = b := by
            by_cases hsc2 : isSpc c2 = true
            · rw [hy2, if_pos hsc2] at hyb
              rw [← hyb] at hb
              exact absurd hb (by decide)
            · rwa [hy2, if_neg hsc2] at hyb
          subst hc
          subst hc2
          simp [hasPair] at h
        · left
          exact hca
      · rw [← hy]
        exact ih c2 (hasPair_tail h)

theorem lastNonSpc_cons_cons (c d : Char) (r : List Char) :
    lastNonSpc (c :: d :: r) = lastNonSpc (d :: r) := by
  simp [lastNonSpc, List.getLast?_cons_cons]

theorem dts_lastNonSpc : ∀ (l : List Char), lastNonSpc (dropTrailingSpc l) = true := by
  intro l
  induction l with
  | nil => rfl
  | cons c cs ih =>
    cases hr : dropTrailingSpc cs with
    | nil =>
      simp only [dropTrailingSpc, hr]
      by_cases hc : isSpc c = true
      · simp only [hc, if_true]; rfl
      · simp only [hc, if_false]
        simp [lastNonSpc, hc]
    | cons d r' =>
      simp only [dropTrailingSpc, hr]
      rw [lastNonSpc_cons_cons, ← hr]
      exact ih

theorem lastNonSpc_id : ∀ {l : List Char}, lastNonSpc l = true → dropTrailingSpc l = l := by
  intro l
  induction l with
  | nil => intro _; rfl
  | cons c cs ih =>
    intro h
    cases cs with
    | nil =>
      have hc : isSpc c = false := by
        simpa [lastNonSpc] using h
      simp [dropTrailingSpc, hc]
    | cons d ds =>
      rw [lastNonSpc_cons_cons] at h
      have h2 := ih h
      simp only [dropTrailingSpc] at h2 ⊢
      rw [h2]

theorem collapse_lastNonSpc :
    ∀ (cs : List Char) (c : Char), lastNonSpc (c :: cs) = true →
      lastNonSpc (collapse (c :: cs)) = true := by
  intro cs
  induction cs with
  | nil =>
    intro c h
    have hc : isSpc c = false := by simpa [lastNonSpc] using h
    simp only [collapse, hc, if_false]
    simpa [lastNonSpc] using hc
  | cons c2 rest ih =>
    intro c h
    rw [lastNonSpc_cons_cons] at h
    by_cases hsp : (isSpc c && isSpc c2) = true
    · simp only [collapse, hsp, if_true]
      exact ih c2 h
    · have hsp' : (isSpc c && isSpc c2) = false := by
        rcases Bool.eq_false_or_eq_true (isSpc c && isSpc c2) with hx | hx
        · exact absurd hx hsp
        · exact hx
      obtain ⟨y, Y, hy⟩ : ∃ y Y, collapse (c2 :: rest) = y :: Y := by
        cases hc : collapse (c2 :: rest) with
        | nil => exact absurd hc (collapse_ne_nil rest c2)
        | cons y Y => exact ⟨y, Y, rfl⟩
      have hgoal : collapse (c :: c2 :: rest)
          = (if isSpc c then ' ' else c) :: collapse (c2 :: rest) := by
        simp [collapse, hsp']
      rw [hgoal, hy, lastNonSpc_cons_cons, ← hy]
      exact ih c2 h

theorem collapsedB_collapse : ∀ (l : List Char), collapsedB (collapse l) = true := by
  intro l
  induction l with
  | nil => rfl
  | cons c cs ih =>
    cases cs with
    | nil =>
      by_cases hc : isSpc c = true
      · simp [collapse, collapsedB, hc]
      · simp [collapse, collapsedB, hc]
    | cons c2 rest =>
      by_cases hsp : (isSpc c && isSpc c2) = true
      · simp only [collapse, hsp, if_true]
        exact ih
      · simp only [collapse, hsp, if_false]
        obtain ⟨y, Y, hy⟩ : ∃ y Y, collapse (c2 :: rest) = y :: Y := by
          cases hcc : collapse (c2 :: rest) with
          | nil => exact absurd hcc (collapse_ne_nil rest c2)
          | cons y Y => exact ⟨y, Y, rfl⟩
        have hyv : y = if isSpc c2 then ' ' else c2 := by
          have := collapse_head rest c2
          rw [hy] at this
          simpa using this
        rw [hy]
        simp only [collapsedB, Bool.and_eq_true]
        refine ⟨⟨?_, ?_⟩, ?_⟩
        · by_cases hc : isSpc c = true
          · simp [hc]
          · simp [hc]
        · -- no adjacent pair of spaces at the seam
          by_cases hc : isSpc c = true
          · have hc2 : isSpc c2 = false := by
              by_cases h2 : isSpc c2 = true
              · exact absurd (by simp [hc, h2] : (isSpc c && isSpc c2) = true) hsp
              · simpa using h2
            have hys : isSpc y = false := by rw [hyv, if_neg (by simp [hc2])]; exact hc2
            simp [hc, hys]
          · simp [hc]
        · rw [← hy]
          exact ih

theorem collapsedB_id : ∀ {l : List Char}, collapsedB l = true → collapse l = l := by
  intro l
  induction l with
  | nil => intro _; rfl
  | cons c cs ih =>
    intro h
    cases cs with
    | nil =>
      have hc : !isSpc c || c = ' ' := by simpa [collapsedB] using h
      by_cases hsc : isSpc c = true
      · have hcsp : c = ' ' := by
          rcases Bool.or_eq_true_iff.mp hc with h1 | h1
          · rw [hsc] at h1; simp at h1
          · simpa using h1
        simp [collapse, hsc, hcsp]
      · simp [collapse, hsc]
    | cons c2 rest =>
      simp only [collapsedB, Bool.and_eq_true] at h
      obtain ⟨⟨h1, h2⟩, h3⟩ := h
      have hsp : (isSpc c && isSpc c2) = false := by
        rcases (by simpa using h2 : isSpc c = false ∨ isSpc c2 = false) with hx | hx <;>
          simp [hx]
      simp only [collapse, hsp, if_false]
      rw [ih h3]
      by_cases hsc : isSpc c = true
      · have : c = ' ' := by
          rcases Bool.or_eq_true_iff.mp h1 with hx | hx
          · rw [hsc] at hx; simp at hx
          · simpa using hx
        simp [hsc, this]
      · simp [hsc]

theorem collapse_collapse (l : List Char) : collapse (collapse l) = collapse l :=
  collapsedB_id (collapsedB_collapse l)

theorem stripLineGo_id :
    ∀ {l : List Char}, hasPair '-' '-' l = false → stripLineGo false l = l := by
  intro l
  induction l with
  | nil => intro _; rfl
  | cons c cs ih =>
    intro h
    simp only [stripLineGo]
    have hcond : (c = '-' && cs.head? = some '-') = false := by
      by_cases hc : c = '-'
      · subst hc
        cases cs with
        | nil => simp
        | cons d ds =>
          by_cases hd : d = '-'
          · subst hd
            simp [hasPair] at h
          · simp [hd]
      · simp [hc]
    rw [hcond]
    simp only [Bool.false_eq_true, if_false]
    rw [ih (hasPair_tail h)]

theorem stripBlockGo_id :
    ∀ (fuel : Nat) {l : List Char}, hasPair '/' '*' l = false →
      stripBlockGo fuel l = l := by
  intro fuel
  induction fuel with
  | zero => intro l _; rfl
  | succ n ih =>
    intro l h
    cases l with
    | nil => rfl
    | cons c cs =>
      simp only [stripBlockGo]
      have hcond : (c = '/' && cs.head? = some '*') = false := by
        by_cases hc : c = '/'
        · subst hc
          cases cs with
          | nil => simp
          | cons d ds =>
            by_cases hd : d = '*'
            · subst hd
              simp [hasPair] at h
            · simp [hd]
        · simp [hc]
      rw [hcond]
      simp only [Bool.false_eq_true, if_false]
      rw [ih (hasPair_tail h)]

theorem head_dropWhile_not {p : Char → Bool} :
    ∀ {l : List Char} {c : Char}, (l.dropWhile p).head? = some c → p c = false := by
  intro l
  induction l with
  | nil => intro c h; simp at h
  | cons a as ih =>
    intro c h
    rw [List.dropWhile_cons] at h
    by_cases hp : p a = true
    · rw [if_pos hp] at h
      exact ih h
    · rw [if_neg hp] at h
      have : a = c := by simpa using h
      subst this
      simpa using hp

theorem dropWhile_head_id {l : List Char} {c : Char}
    (h : l.head? = some c) (hc : isSpc c = false) : l.dropWhile isSpc = l := by
  cases l with
  | nil => simp at h
  | cons a as =>
    have : a = c := by simpa using h
    subst this
    rw [List.dropWhile_cons, if_neg (by simp [hc])]

/-- C6 (amended): on inputs free of comment syntax (no `--` and no `/*`),
`preprocess_user_query` is idempotent; both comment-stripping passes are the
identity, and strip/collapse of an already stripped-and-collapsed text is
the identity. -/
theorem c6_amended (q : List Char) (hdd : hasPair '-' '-' q = false)
    (hss : hasPair '/' '*' q = false) :
    preprocess_user_query (preprocess_user_query q) = preprocess_user_query q := by
  -- names for the successive stages of the first pass
  have hdd1 : hasPair '-' '-' (q.dropWhile isSpc) = false := hasPair_dropWhile hdd
  have hdd2 : hasPair '-' '-' (dropTrailingSpc (q.dropWhile isSpc)) = false :=
    hasPair_dropTrailing hdd1
  have hddr : hasPair '-' '-' (collapse (dropTrailingSpc (q.dropWhile isSpc))) = false := by
    cases hs2 : dropTrailingSpc (q.dropWhile isSpc) with
    | nil => rfl
    | cons c2 t2 =>
      rw [← hs2]
      rw [hs2] at hdd2 ⊢
      exact hasPair_collapse (by decide) (by decide) t2 c2 hdd2
  have hss1 : hasPair '/' '*' (q.dropWhile isSpc) = false := hasPair_dropWhile hss
  have hss2 : hasPair '/' '*' (dropTrailingSpc (q.dropWhile isSpc)) = false :=
    hasPair_dropTrailing hss1
  have hssr : hasPair '/' '*' (collapse (dropTrailingSpc (q.dropWhile isSpc))) = false := by
    cases hs2 : dropTrailingSpc (q.dropWhile isSpc) with
    | nil => rfl
    | cons c2 t2 =>
      rw [hs2] at hss2
      exact hasPair_collapse (by decide) (by decide) t2 c2 hss2
  -- the first pass is strip-then-collapse only
  have hp1 : preprocess_user_query q = collapse (dropTrailingSpc (q.dropWhile isSpc)) := by
    show stripBlockComments (stripLineComments (collapse (stripW q))) = _
    rw [stripW, stripLineComments, stripLineGo_id hddr, stripBlockComments,
      stripBlockGo_id _ hssr]
  rw [hp1]
  cases hs2 : dropTrailingSpc (q.dropWhile isSpc) with
  | nil => rfl
  | cons c2 t2 =>
    -- the head of the stripped text is not whitespace
    have hnn : dropTrailingSpc (q.dropWhile isSpc) ≠ [] := by rw [hs2]; simp
    have hh : (dropTrailingSpc (q.dropWhile isSpc)).head? = (q.dropWhile isSpc).head? :=
      dropTrailingSpc_head hnn
    have hc2 : isSpc c2 = false := by
      apply head_dropWhile_not (l := q) (c := c2)
      rw [← hh, hs2]
      rfl
    -- head and trailing character of the collapsed text
    have hrhead : (collapse (c2 :: t2)).head? = some c2 := by
      rw [collapse_head t2 c2, hc2]
      simp
    have hlast2 : lastNonSpc (c2 :: t2) = true := by
      rw [← hs2]
      exact dts_lastNonSpc (q.dropWhile isSpc)
    have hlastr : lastNonSpc (collapse (c2 :: t2)) = true :=
      collapse_lastNonSpc t2 c2 hlast2
    -- the second pass is the identity on the collapsed text
    have hdw : (collapse (c2 :: t2)).dropWhile isSpc = collapse (c2 :: t2) :=
      dropWhile_head_id hrhead hc2
    have hdt : dropTrailingSpc (collapse (c2 :: t2)) = collapse (c2 :: t2) :=
      lastNonSpc_id hlastr
    have hcc : collapse (collapse (c2 :: t2)) = collapse (c2 :: t2) :=
      collapse_collapse (c2 :: t2)
    rw [hs2] at hddr hssr
    show stripBlockComments (stripLineComments (collapse (stripW (collapse (c2 :: t2)))))
        = collapse (c2 :: t2)
    rw [stripW, hdw, hdt, hcc, stripLineComments, stripLineGo_id hddr,
      stripBlockComments, stripBlockGo_id _ hssr]

theorem c6_amended_witness :
    hasPair '-' '-' "  hello   world ".data = false ∧
    hasPair '/' '*' "  hello   world ".data = false ∧
    preprocess_user_query (preprocess_user_query "  hello   world ".data)
      = preprocess_user_query "  hello   world ".data :=
  ⟨by decide, by decide,
    c6_amended "  hello   world ".data (by decide) (by decide)⟩

/-! ## C1 — the duplicate guard inserts exactly one DISTINCT -/

theorem startsWithCI_take :
    ∀ (w l : List Char), startsWithCI w l = startsWithCI w (l.take w.length) := by
  intro w
  induction w with
  | nil => intro l; rfl
  | cons p ps ih =>
    intro l
    cases l with
    | nil => rfl
    | cons c cs =>
      simp only [List.length_cons, List.take_succ_cons, startsWithCI]
      rw [ih cs]

theorem distinctHere_take9 (l : List Char) : distinctHere l = distinctHere (l.take 9) := by
  unfold distinctHere
  have h1 : startsWithCI "distinct".data l = startsWithCI "distinct".data (l.take 9) := by
    rw [startsWithCI_take "distinct".data l, startsWithCI_take "distinct".data (l.take 9)]
    rw [show ("distinct".data).length = 8 from rfl, List.take_take]
    norm_num
  have h2 : boundaryAfter 8 l = boundaryAfter 8 (l.take 9) := by
    unfold boundaryAfter
    rw [List.drop_take]
    cases hX : l.drop 8 with
    | nil => rfl
    | cons c rest => rfl
  rw [h1, h2]

theorem eqCI_space {p w : Char} (hp : notSpaceCI p = true) (hw : isSpc w = true) :
    eqCI p w = false := by
  simp only [notSpaceCI, Bool.and_eq_true, Bool.not_eq_true'] at hp
  obtain ⟨⟨⟨⟨⟨h1, h2⟩, h3⟩, h4⟩, h5⟩, h6⟩ := hp
  have h7 : w = ' ' ∨ w = '\t' ∨ w = '\n' ∨ w = '\r' ∨ w = '\x0b' ∨ w = '\x0c' := by
    simpa [isSpc, or_assoc] using hw
  rcases h7 with rfl | rfl | rfl | rfl | rfl | rfl <;> assumption

theorem swci_no_space :
    ∀ (pat : List Char), (∀ c ∈ pat, notSpaceCI c = true) →
      ∀ (pre : List Char) (w : Char) (suf : List Char), isSpc w = true →
        pre.length < pat.length → startsWithCI pat (pre ++ w :: suf) = false := by
  intro pat
  induction pat with
  | nil =>
    intro _ pre w suf _ hlen
    simp at hlen
  | cons p ps ih =>
    intro hpat pre w suf hw hlen
    cases pre with
    | nil =>
      simp only [List.nil_append, startsWithCI]
      rw [eqCI_space (hpat p (by simp)) hw]
      simp
    | cons a pre' =>
      simp only [List.cons_append, startsWithCI, List.append_eq]
      rw [ih (fun c hc => hpat c (by simp [hc])) pre' w suf hw
        (by simpa using Nat.lt_of_succ_lt_succ hlen)]
      simp

theorem distinctHere_space_early (pre : List Char) (w : Char) (suf : List Char)
    (hlen : pre.length < 8) (hw : isSpc w = true) :
    distinctHere (pre ++ w :: suf) = false := by
  unfold distinctHere
  rw [swci_no_space "distinct".data (by decide) pre w suf hw
    (by rw [show ("distinct".data).length = 8 from rfl]; exact hlen)]
  simp

theorem distinctHere_indep (X : List Char) (w : Char) (B B' : List Char)
    (hw : isSpc w = true) :
    distinctHere (X ++ w :: B) = distinctHere (X ++ w :: B') := by
  by_cases hX : 8 ≤ X.length
  · rw [distinctHere_take9 (X ++ w :: B), distinctHere_take9 (X ++ w :: B')]
    have heq : (X ++ w :: B).take 9 = (X ++ w :: B').take 9 := by
      rw [List.take_append_eq_append_take, List.take_append_eq_append_take]
      have h9 : 9 - X.length = 0 ∨ 9 - X.length = 1 := by omega
      rcases h9 with h9 | h9 <;> rw [h9] <;> simp
    rw [heq]
  · have hlen : X.length < 8 := by omega
    rw [distinctHere_space_early X w B hlen hw,
      distinctHere_space_early X w B' hlen hw]

theorem isSpc_not_word {w : Char} (hw : isSpc w = true) : isWordChar w = false := by
  have h7 : w = ' ' ∨ w = '\t' ∨ w = '\n' ∨ w = '\r' ∨ w = '\x0b' ∨ w = '\x0c' := by
    simpa [isSpc, or_assoc] using hw
  rcases h7 with rfl | rfl | rfl | rfl | rfl | rfl <;> decide

theorem distinctHere_head_space {w : Char} (B : List Char) (hw : isSpc w = true) :
    distinctHere (w :: B) = false := by
  have := distinctHere_space_early [] w B (by simp) hw
  simpa using this

theorem scan_D (B : List Char) :
    scanCount distinctHere false ("DISTINCT ".data ++ B)
      = 1 + scanCount distinctHere false B := by
  have e : "DISTINCT ".data ++ B
      = 'D' :: 'I' :: 'S' :: 'T' :: 'I' :: 'N' :: 'C' :: 'T' :: ' ' :: B := rfl
  rw [e]
  have hD : distinctHere ('D' :: 'I' :: 'S' :: 'T' :: 'I' :: 'N' :: 'C' :: 'T' :: ' ' :: B)
      = true := by
    rw [distinctHere_take9]
    rw [show ('D' :: 'I' :: 'S' :: 'T' :: 'I' :: 'N' :: 'C' :: 'T' :: ' ' :: B).take 9
      = ['D', 'I', 'S', 'T', 'I', 'N', 'C', 'T', ' '] from rfl]
    decide
  have w1 : isWordChar 'D' = true := by decide
  have w2 : isWordChar 'I' = true := by decide
  have w3 : isWordChar 'S' = true := by decide
  have w4 : isWordChar 'T' = true := by decide
  have w5 : isWordChar 'N' = true := by decide
  have w6 : isWordChar 'C' = true := by decide
  have w7 : isWordChar ' ' = false := by decide
  simp only [scanCount, hD, w1, w2, w3, w4, w5, w6, w7, Bool.not_false, Bool.not_true,
    Bool.true_and, Bool.false_and, Bool.false_eq_true, if_true, if_false, Nat.zero_add,
    Nat.add_zero]

theorem scan_insert (w : Char) (hw : isSpc w = true) :
    ∀ (X : List Char) (p : Bool) (B : List Char),
      scanCount distinctHere p (X ++ w :: B) = 0 →
      scanCount distinctHere p (X ++ w :: ("DISTINCT ".data ++ B)) = 1 := by
  intro X
  induction X with
  | nil =>
    intro p B h0
    simp only [List.nil_append] at h0 ⊢
    rw [scanCount] at h0 ⊢
    rw [distinctHere_head_space B hw] at h0
    rw [distinctHere_head_space ("DISTINCT ".data ++ B) hw]
    rw [isSpc_not_word hw] at h0 ⊢
    simp only [Bool.and_false, Bool.false_eq_true, if_false, Nat.zero_add] at h0 ⊢
    rw [scan_D, h0]
  | cons c X' ih =>
    intro p B h0
    rw [List.cons_append] at h0 ⊢
    rw [scanCount] at h0 ⊢
    have hleft := Nat.eq_zero_of_add_eq_zero_right h0
    have hright := Nat.eq_zero_of_add_eq_zero_left h0
    have hseam : distinctHere (c :: (X' ++ w :: ("DISTINCT ".data ++ B)))
        = distinctHere (c :: (X' ++ w :: B)) := by
      have := distinctHere_indep (c :: X') w ("DISTINCT ".data ++ B) B hw
      simpa [List.cons_append] using this
    rw [hseam, ih (isWordChar c) B hright, hleft]

theorem insertDistinct_decomp :
    ∀ (s : List Char), hasSelectWS s = true →
      ∃ A w B, isSpc w = true ∧ s = A ++ w :: B ∧
        insertDistinct s = A ++ w :: ("DISTINCT ".data ++ B) := by
  intro s
  induction s with
  | nil => intro h; exact absurd h (by decide)
  | cons c cs ih =>
    intro h
    by_cases hsel : selectWSHere (c :: cs) = true
    · obtain ⟨d, r, hdrop⟩ : ∃ d r, (c :: cs).drop 6 = d :: r := by
        cases hd : (c :: cs).drop 6 with
        | nil => rw [selectWSHere, hd] at hsel; simp at hsel
        | cons d r => exact ⟨d, r, rfl⟩
      have hd : isSpc d = true := by
        rw [selectWSHere, hdrop] at hsel
        simp only [Bool.and_eq_true] at hsel
        exact hsel.2
      have hspne : ((c :: cs).drop 6).takeWhile isSpc ≠ [] := by
        rw [hdrop, List.takeWhile_cons, if_pos (by simp [hd])]
        simp
      obtain ⟨sp', w', hsp'⟩ : ∃ sp' w',
          ((c :: cs).drop 6).takeWhile isSpc = sp' ++ [w'] :=
        ⟨_, _, (List.dropLast_append_getLast hspne).symm⟩
      have hwsp : isSpc w' = true := by
        apply List.mem_takeWhile_imp (l := (c :: cs).drop 6)
        rw [hsp']
        simp
      refine ⟨(c :: cs).take 6 ++ sp', w',
        ((c :: cs).drop 6).dropWhile isSpc, hwsp, ?_, ?_⟩
      · conv_lhs => rw [← List.take_append_drop 6 (c :: cs),
          ← List.takeWhile_append_dropWhile (p := isSpc) (l := (c :: cs).drop 6)]
        rw [hsp']
        simp [List.append_assoc]
      · rw [show insertDistinct (c :: cs)
            = (c :: cs).take 6 ++ ((c :: cs).drop 6).takeWhile isSpc
              ++ "DISTINCT ".data ++ ((c :: cs).drop 6).dropWhile isSpc by
          rw [insertDistinct]; rw [if_pos hsel]]
        rw [hsp']
        simp [List.append_assoc]
    · have hself : selectWSHere (c :: cs) = false := Bool.eq_false_iff.mpr hsel
      have h' : hasSelectWS cs = true := by
        rw [hasSelectWS, hself] at h
        simpa using h
      obtain ⟨A, w, B, hw, hcs, hins⟩ := ih h'
      refine ⟨c :: A, w, B, hw, by rw [List.cons_append, ← hcs], ?_⟩
      rw [show insertDistinct (c :: cs) = c :: insertDistinct cs by
        rw [insertDistinct]; rw [if_neg (by simp [hself])]]
      rw [hins]
      simp

/-- C1 (counterexample): `a JOIN b` satisfies the claim's antecedent (a
word-bounded `JOIN`, no `GROUP BY`, no `DISTINCT`), and the full rewrite
returns the description, but the text has no `SELECT` followed by
whitespace, so the substitution is a no-op and the result contains zero
`DISTINCT`s rather than exactly one. -/
theorem c1_join_without_select :
    hasJoin "a JOIN b".data = true ∧
    hasGroupBy "a JOIN b".data = false ∧
    hasDistinct "a JOIN b".data = false ∧
    rewritePipeline "a JOIN b".data
      = some ("a JOIN b".data, some addedDistinctMsg, none) ∧
    countDistinct "a JOIN b".data = 0 := by
  refine ⟨by decide, by decide, by decide, by decide, by decide⟩

/-- C1 (amended): when the SQL additionally contains an occurrence of
`SELECT` followed by whitespace, the duplicate guard returns the text with
`DISTINCT ` inserted after the first such `SELECT` and its whitespace run,
together with the description, and the rewritten text contains exactly one
word-bounded case-insensitive `DISTINCT`. -/
theorem c1_amended (s : List Char) (hj : hasJoin s = true) (hg : hasGroupBy s = false)
    (hd : hasDistinct s = false) (hs : hasSelectWS s = true) :
    detect_and_handle_duplicates s = (insertDistinct s, some addedDistinctMsg) ∧
    countDistinct (insertDistinct s) = 1 := by
  have hcond : (hasJoin s && !hasGroupBy s && !hasDistinct s) = true := by
    simp [hj, hg, hd]
  constructor
  · simp [detect_and_handle_duplicates, hcond]
  · have h0 : countDistinct s = 0 := by
      have h1 := hd
      rw [hasDistinct] at h1
      simpa using h1
    obtain ⟨A, w, B, hw, hsplit, hins⟩ := insertDistinct_decomp s hs
    rw [hins]
    rw [hsplit] at h0
    exact scan_insert w hw A false B h0

theorem c1_amended_witness :
    hasJoin "SELECT a FROM t JOIN u".data = true ∧
    hasGroupBy "SELECT a FROM t JOIN u".data = false ∧
    hasDistinct "SELECT a FROM t JOIN u".data = false ∧
    hasSelectWS "SELECT a FROM t JOIN u".data = true ∧
    detect_and_handle_duplicates "SELECT a FROM t JOIN u".data
      = (insertDistinct "SELECT a FROM t JOIN u".data, some addedDistinctMsg) ∧
    countDistinct (insertDistinct "SELECT a FROM t JOIN u".data) = 1 := by
  have := c1_amended "SELECT a FROM t JOIN u".data (by decide) (by decide)
    (by decide) (by decide)
  exact ⟨by decide, by decide, by decide, by decide, this.1, this.2⟩

/-! ## C9 — prompt composition -/

theorem startsWithL_self_append : ∀ (p y : List Char), startsWithL p (p ++ y) = true := by
  intro p
  induction p with
  | nil => intro y; rfl
  | cons a as ih =>
    intro y
    simp [startsWithL, ih y]

theorem containsSub_of_startsWith {p l : List Char} (h : startsWithL p l = true) :
    containsSub p l = true := by
  cases l with
  | nil => exact h
  | cons c cs =>
    rw [containsSub, h]
    simp

theorem containsSub_append_left (p : List Char) :
    ∀ (x y : List Char), containsSub p y = true → containsSub p (x ++ y) = true := by
  intro x
  induction x with
  | nil => intro y h; simpa using h
  | cons c cs ih =>
    intro y h
    rw [List.cons_append, containsSub, ih y h]
    simp

theorem startsWithL_append_ext :
    ∀ (p l y : List Char), startsWithL p l = true → startsWithL p (l ++ y) = true := by
  intro p
  induction p with
  | nil => intro l y _; rfl
  | cons a as ih =>
    intro l y h
    cases l with
    | nil => simp [startsWithL] at h
    | cons c cs =>
      simp only [startsWithL, Bool.and_eq_true] at h
      simp only [List.cons_append, startsWithL, Bool.and_eq_true]
      exact ⟨h.1, ih cs y h.2⟩

theorem containsSub_nil_pat : ∀ (l : List Char), containsSub [] l = true := by
  intro l
  cases l with
  | nil => rfl
  | cons c cs => rw [containsSub]; rfl

theorem containsSub_append_right (p : List Char) :
    ∀ (x y : List Char), containsSub p x = true → containsSub p (x ++ y) = true := by
  intro x
  induction x with
  | nil =>
    intro y h
    cases p with
    | nil => exact containsSub_nil_pat y
    | cons a as => simp [containsSub, startsWithL] at h
  | cons c cs ih =>
    intro y h
    rw [containsSub] at h
    rcases Bool.or_eq_true_iff.mp h with h1 | h1
    · rw [List.cons_append]
      exact containsSub_of_startsWith
        (by rw [← List.cons_append]; exact startsWithL_append_ext p (c :: cs) y h1)
    · rw [List.cons_append, containsSub, ih y h1]
      simp

theorem joinL_append : ∀ (a b : List (List Char)), joinL (a ++ b) = joinL a ++ joinL b := by
  intro a
  induction a with
  | nil => intro b; rfl
  | cons l ls ih =>
    intro b
    simp only [List.cons_append, joinL, List.append_eq, ih, List.append_assoc]

/-- C9 (amended): for every snapshot containing a `purchase_orders` table
with a `vendor` column of declared type `VARCHAR(100)`, the composed prompt
contains `- vendor: VARCHAR(100)` (the full rendered line continues with a
nullability annotation), and the prompt ends with `User Query: ` plus the
question followed by a fixed closing instruction block — the question is not
the prompt's tail. -/
theorem c9_amended (snap : Snapshot) (q : List Char) (info : TableInfo)
    (col : ColumnInfo) (ht : ("purchase_orders".data, info) ∈ snap)
    (hc : col ∈ info.columns) (hn : col.name = "vendor".data)
    (hty : col.type = "VARCHAR(100)".data) :
    containsSub "- vendor: VARCHAR(100)".data (combined_query snap q) = true ∧
    ∃ pre, combined_query snap q
      = pre ++ ("\n\nUser Query: ".data ++ (q ++ closingBlock)) := by
  constructor
  · obtain ⟨s1, s2, hsnap⟩ := List.append_of_mem ht
    obtain ⟨c1, c2, hcols⟩ := List.append_of_mem hc
    have hcolR : ∃ R, renderColumn col = "- vendor: VARCHAR(100)".data ++ R := by
      refine ⟨(if col.primary_key then " (PK)".data else [])
        ++ ((if col.nullable then " NULL".data else " NOT NULL".data)
        ++ ((match col.default_value with
            | some d => if d.isEmpty then [] else " DEFAULT ".data ++ d
            | none => []) ++ "\n".data)), ?_⟩
      rw [renderColumn, hn, hty]
      rw [show "- vendor: VARCHAR(100)".data
        = "- ".data ++ ("vendor".data ++ (": ".data ++ "VARCHAR(100)".data)) from by decide]
      simp [List.append_assoc]
    obtain ⟨R, hR⟩ := hcolR
    have h1 : containsSub "- vendor: VARCHAR(100)".data (renderColumn col) = true := by
      rw [hR]
      exact containsSub_of_startsWith (startsWithL_self_append _ _)
    have h2 : containsSub "- vendor: VARCHAR(100)".data
        (joinL (info.columns.map renderColumn)) = true := by
      rw [hcols, List.map_append, joinL_append, List.map_cons]
      rw [show joinL (renderColumn col :: c2.map renderColumn)
        = renderColumn col ++ joinL (c2.map renderColumn) from rfl]
      exact containsSub_append_left _ _ _ (containsSub_append_right _ _ _ h1)
    have h3 : containsSub "- vendor: VARCHAR(100)".data
        (renderTable "purchase_orders".data info) = true := by
      rw [renderTable]
      apply containsSub_append_right
      apply containsSub_append_right
      apply containsSub_append_right
      exact containsSub_append_left _ _ _ h2
    have h4 : containsSub "- vendor: VARCHAR(100)".data (schemaPrompt snap) = true := by
      rw [schemaPrompt, hsnap, List.map_append, joinL_append, List.map_cons]
      apply containsSub_append_left
      apply containsSub_append_left
      rw [show joinL (renderTable ("purchase_orders".data, info).1
            ("purchase_orders".data, info).2 :: s2.map (fun p => renderTable p.1 p.2))
        = renderTable "purchase_orders".data info
          ++ joinL (s2.map (fun p => renderTable p.1 p.2)) from rfl]
      exact containsSub_append_right _ _ _ h3
    rw [combined_query]
    apply containsSub_append_right
    apply containsSub_append_right
    apply containsSub_append_right
    apply containsSub_append_right
    apply containsSub_append_right
    exact containsSub_append_left _ _ _ h4
  · refine ⟨"\n".data ++ schemaPrompt snap ++ "\n\n".data ++ prompt_guidance, ?_⟩
    rw [combined_query]
    simp [List.append_assoc]

set_option maxRecDepth 8000 in
/-- C9 (counterexample): `snapC9` contains the `purchase_orders` table with
the `vendor VARCHAR(100)` column, yet the composed prompt does not end with
the normalized question — a fixed closing instruction block follows it, so
the claim's "the prompt's tail is the literal normalized question" fails. -/
theorem c9_tail_not_question :
    ("purchase_orders".data, infoC9) ∈ snapC9 ∧
    vendorCol ∈ infoC9.columns ∧
    vendorCol.name = "vendor".data ∧
    vendorCol.type = "VARCHAR(100)".data ∧
    endsWithL q9 (combined_query snapC9 q9) = false := by
  refine ⟨by simp [snapC9], by simp [infoC9], rfl, rfl, by decide⟩

theorem c9_amended_witness :
    containsSub "- vendor: VARCHAR(100)".data (combined_query snapC9 q9) = true ∧
    ∃ pre, combined_query snapC9 q9
      = pre ++ ("\n\nUser Query: ".data ++ (q9 ++ closingBlock)) :=
  c9_amended snapC9 q9 infoC9 vendorCol (by simp [snapC9]) (by simp [infoC9]) rfl rfl
